import Mathlib

/-!
Verification of the LiveSRT incremental LLM translator and audio layer.

The definitions below are a shallow embedding of the Python sources:
`src/livesrt/translate/base.py` (class `LlmTranslator` and its data types),
`src/livesrt/translate/remote_llm.py` (`is_missing_tool_call`,
`call_completion` retry policy) and `src/livesrt/mic.py`
(`MicManager.stream_file` cleanup).  Python dicts keyed by turn id become
association lists, `None`-able fields become `Option`, raised exceptions
become `Except`, and the single abstract LLM call becomes an explicit
parameter (the completion the backend would return).
-/

/-- Modelled from the spec: `Word` from `livesrt/transcribe/base.py`, which is
not part of the provided sources.  The spec (section 3) gives a word its text,
offsets, confidence, finality flag and an optional speaker label; the
translator code only reads `text` and `speaker`, and the repository tests
construct words as `Word(type="word", text=..., speaker=...)`, so only those
three fields are embedded (offsets and confidence are never read by the code
under verification). -/
structure Word where
  type : String
  text : String
  speaker : Option String := none
deriving DecidableEq, Repr

/-- Modelled from the spec: `Turn` from `livesrt/transcribe/base.py`, which is
not part of the provided sources.  The spec (section 3) gives a turn a
monotonically increasing `id`, a rendered `text`, a `final` flag and an
ordered word list; these are exactly the fields the translator code and the
repository tests use. -/
structure Turn where
  id : Nat
  text : String
  final : Bool
  words : List Word
deriving DecidableEq, Repr

/-- Type `TranslatedTurn` from `translate/base.py`: a frozen dataclass with `id`,
`original_id`, `speaker`, `text` and optional `start`/`end` timestamps
(defaulting to `None`).  Note that the dataclass in the source has no
`hidden` field. -/
structure TranslatedTurn where
  id : Nat
  original_id : Nat
  speaker : String
  text : String
  start : Option Int := none
  mend : Option Int := none
deriving DecidableEq, Repr

/-- The JSON-encoded `arguments` string of a tool call, modelled by the
outcome of the two operations the source performs on it:
`json.loads(arguments)` (which may raise `JSONDecodeError`, the
`parseError` case) and the lookups `parsed["speaker"]` / `parsed["text"]`
(each may raise `KeyError`, modelled by the two `Option` projections of the
`obj` case).  Arguments of tool calls whose name is not `"translate"` are
never inspected by the source. -/
inductive Args where
  | parseError : Args
  | obj : Option String → Option String → Args
deriving DecidableEq, Repr

/-- The `"function"` object of an LLM tool call:
`{"name": ..., "arguments": ...}`. -/
structure ToolFunction where
  name : String
  arguments : Args
deriving DecidableEq, Repr

/-- One element of an assistant message's `tool_calls` list:
`{"id": ..., "function": {...}}`. -/
structure ToolCall where
  id : String
  function : ToolFunction
deriving DecidableEq, Repr

/-- An LLM chat message as stored by the translator (the value of
`completion["choices"][0]["message"]`): a `role`, an optional `content`
string and an optional `tool_calls` list (`none` models both an absent key
and an explicit `null`, which `dict.get("tool_calls") or []` treats the
same way). -/
structure Message where
  role : String
  content : Option String := none
  tool_calls : Option (List ToolCall) := none
deriving DecidableEq, Repr

/-- The JSON object returned by the completion backend; only
`completion["choices"][i]["message"]` is ever read, so each choice is
embedded directly as its message. -/
structure Completion where
  choices : List Message
deriving DecidableEq, Repr

/-- Type `LlmTranslationEntry` from `translate/base.py`: the original turn, the
cached assistant message of the last successful translation (or `None`) and
the translated turns it produced (or `None`).  The dataclass in the source
has no `tool_outputs` field. -/
structure LlmTranslationEntry where
  turn : Turn
  completion : Option Message := none
  translated : Option (List TranslatedTurn) := none
deriving DecidableEq, Repr

/-- The translator's `turns` attribute: a Python `dict[int,
LlmTranslationEntry]`, embedded as an insertion-ordered association list
with unique keys maintained by `dictSet`. -/
abbrev TurnsDict := List (Nat × LlmTranslationEntry)

/-- First-occurrence lookup, mirroring Python `dict.get`. -/
def dictGet : TurnsDict → Nat → Option LlmTranslationEntry
  | [], _ => none
  | (k0, v0) :: rest, k => if k0 = k then some v0 else dictGet rest k

/-- Update-or-append, mirroring Python `d[k] = v`. -/
def dictSet : TurnsDict → Nat → LlmTranslationEntry → TurnsDict
  | [], k, v => [(k, v)]
  | (k0, v0) :: rest, k, v =>
      if k0 = k then (k, v) :: rest else (k0, v0) :: dictSet rest k v

/-- Computes `min(turn.id, min_diff)` where `min_diff` starts at `float("inf")`,
embedded as `Option Nat` with `none` playing the role of infinity. -/
def minOpt : Option Nat → Nat → Option Nat
  | none, x => some x
  | some m, x => some (min m x)

/-- The first loop of `LlmTranslator._update_turns`: walk the queued
snapshot, skip turns with empty `words`, insert unknown turns as fresh
entries, replace the stored `Turn` of known turns whose text changed, and
track the minimum id of inserted or changed turns (`min_diff`). -/
def absorbAll : TurnsDict → Option Nat → List Turn → TurnsDict × Option Nat
  | d, m, [] => (d, m)
  | d, m, t :: rest =>
      if t.words.isEmpty then absorbAll d m rest
      else
        match dictGet d t.id with
        | none =>
            absorbAll (dictSet d t.id { turn := t }) (minOpt m t.id) rest
        | some old =>
            if old.turn.text ≠ t.text then
              absorbAll (dictSet d t.id { old with turn := t }) (minOpt m t.id) rest
            else absorbAll d m rest

/-- The reset applied to one entry by the second loop of `_update_turns`
when `entry.turn.id >= min_diff`. -/
def resetEntry (m : Nat) (e : LlmTranslationEntry) : LlmTranslationEntry :=
  if m ≤ e.turn.id then { e with completion := none, translated := none } else e

/-- The second loop of `_update_turns`: blank `completion` and `translated`
of every entry whose turn id is at least `min_diff`; when `min_diff` is
still infinity (`none`) no entry qualifies. -/
def resetFrom : Option Nat → TurnsDict → TurnsDict
  | none, d => d
  | some m, d => d.map fun p => (p.1, resetEntry m p.2)

/-- The `min_diff` value computed by `_update_turns` (`none` meaning it
stayed at `float("inf")`). -/
def absorbMin (d : TurnsDict) (q : List Turn) : Option Nat :=
  (absorbAll d none q).2

/-- Method `LlmTranslator._update_turns`, as a function of the current `turns`
dict and of `_queued_turns`. -/
def _update_turns (d : TurnsDict) (q : List Turn) : TurnsDict :=
  resetFrom (absorbAll d none q).2 (absorbAll d none q).1

/-- JSON string escaping as performed by `json.dumps` with
`ensure_ascii=False`: quote, backslash and control characters are escaped,
everything else is passed through. -/
def jsonEscapeChar (c : Char) : String :=
  if c.toNat = 34 then "\\\""
  else if c.toNat = 92 then "\\\\"
  else if c.toNat = 10 then "\\n"
  else if c.toNat = 13 then "\\r"
  else if c.toNat = 9 then "\\t"
  else if c.toNat = 8 then "\\b"
  else if c.toNat = 12 then "\\f"
  else if c.toNat < 32 then
    let hexDigit : Nat → String := fun n =>
      String.singleton (Char.ofNat (if n < 10 then 48 + n else 87 + n))
    "\\u00" ++ hexDigit (c.toNat / 16) ++ hexDigit (c.toNat % 16)
  else String.singleton c

/-- A JSON string literal. -/
def jsonStr (s : String) : String :=
  "\"" ++ String.join (s.toList.map jsonEscapeChar) ++ "\""

/-- A JSON value that is either a string or `null` (the serialization of an
optional speaker). -/
def jsonOptStr : Option String → String
  | none => "null"
  | some s => jsonStr s

/-- Wraps an object body in braces (the brace characters are produced by
code point to keep them out of string literals). -/
def jsonObjWrap (body : String) : String :=
  String.singleton (Char.ofNat 123) ++ body ++ String.singleton (Char.ofNat 125)

/-- Computes `itertools.groupby(turn.words, lambda w: w.speaker)`: maximal runs of
consecutive words with the same speaker, each paired with the run's word
texts. -/
def groupWords : List Word → List (Option String × List String)
  | [] => []
  | w :: ws =>
      match groupWords ws with
      | [] => [(w.speaker, [w.text])]
      | (sp, ts) :: rest =>
          if w.speaker = sp then (sp, w.text :: ts) :: rest
          else (w.speaker, [w.text]) :: (sp, ts) :: rest

/-- One element of the `sentences` list:
`dict(speaker=speaker, asr_words=[w.text for w in words])`, serialized the
way `json.dumps` renders it. -/
def jsonSentence (sp : Option String) (ws : List String) : String :=
  jsonObjWrap
    (jsonStr "speaker" ++ ": " ++ jsonOptStr sp ++ ", " ++
      jsonStr "asr_words" ++ ": [" ++
      String.intercalate ", " (ws.map jsonStr) ++ "]")

/-- Method `LlmTranslator._build_user_message`: the queued turn's words grouped by
speaker and serialized as JSON. -/
def _build_user_message (t : Turn) : String :=
  "[" ++
    String.intercalate ", " ((groupWords t.words).map fun g => jsonSentence g.1 g.2) ++
    "]"

/-- One message of the conversation assembled by `_build_conversation`.
Each constructor corresponds to one literal `dict(...)` built in the
source; `assistantCached` is the cached completion message appended
verbatim. -/
inductive ConvMsg where
  | user : String → ConvMsg
  | assistantCached : Message → ConvMsg
  | tool : String → String → ConvMsg
  | assistantOk : ConvMsg
deriving DecidableEq, Repr

/-- Stable insertion used by `sortByTurnId`. -/
def insertByTurnId (e : LlmTranslationEntry) :
    List LlmTranslationEntry → List LlmTranslationEntry
  | [] => [e]
  | x :: xs =>
      if e.turn.id < x.turn.id then e :: x :: xs else x :: insertByTurnId e xs

/-- Computes `sorted(self.turns.values(), key=lambda t: t.turn.id)` (a stable
sort). -/
def sortByTurnId (l : List LlmTranslationEntry) : List LlmTranslationEntry :=
  l.foldl (fun acc e => insertByTurnId e acc) []

/-- The loop body of `LlmTranslator._build_conversation`: for each entry in
turn-id order append the user message; a completed entry then contributes
its cached assistant message, one `tool` message per cached tool call with
constant content `"Recorded"`, and an `assistant` message `"ok"`, while
advancing `turn_id` by the number of translated turns the entry produced;
the first entry without a completion stops the loop and is the entry to
translate. -/
def buildConvLoop :
    List LlmTranslationEntry → Nat → List ConvMsg →
      Option LlmTranslationEntry × Nat × List ConvMsg
  | [], turn_id, conv => (none, turn_id, conv)
  | e :: rest, turn_id, conv =>
      let conv1 := conv ++ [ConvMsg.user (_build_user_message e.turn)]
      match e.completion with
      | some c =>
          buildConvLoop rest (turn_id + (e.translated.getD []).length)
            (conv1 ++ [ConvMsg.assistantCached c] ++
              ((c.tool_calls.getD []).map fun tc => ConvMsg.tool tc.id "Recorded") ++
              [ConvMsg.assistantOk])
      | none => (some e, turn_id, conv1)

/-- Method `LlmTranslator._build_conversation`: returns the entry that must be
translated next (if any), the next-translated-turn id counter, and the
assembled conversation. -/
def _build_conversation (d : TurnsDict) :
    Option LlmTranslationEntry × Nat × List ConvMsg :=
  buildConvLoop (sortByTurnId (d.map Prod.snd)) 0 []

/-- The tool-call loop of `LlmTranslator._decode_completion`: calls whose
function name is `"translate"` have their arguments JSON-parsed (a parse
failure raises) and their `speaker`/`text` fields read (a missing field
raises `KeyError`), producing a `TranslatedTurn` with the next id; calls
with any other name (for example `delete_turn`) are ignored and do not
advance the id counter. -/
def decodeToolCalls (originalId : Nat) : Nat → List ToolCall → Except String (List TranslatedTurn)
  | _, [] => Except.ok []
  | nid, c :: rest =>
      if c.function.name = "translate" then
        match c.function.arguments with
        | Args.parseError => Except.error "json.decoder.JSONDecodeError"
        | Args.obj sp tx =>
            match sp, tx with
            | some s, some t =>
                (decodeToolCalls originalId (nid + 1) rest).map
                  (fun ts => { id := nid, original_id := originalId,
                               speaker := s, text := t } :: ts)
            | none, _ => Except.error "KeyError: speaker"
            | some _, none => Except.error "KeyError: text"
      else decodeToolCalls originalId nid rest

/-- Method `LlmTranslator._decode_completion`: reads
`completion["choices"][0]["message"]` (an empty `choices` list raises); if
the message has role `assistant` and a `tool_calls` list, the tool calls
are decoded in order, otherwise no translated turn is produced.  The
message itself is returned to be cached on the entry. -/
def _decode_completion (turn : Turn) (next_id : Nat) (completion : Completion) :
    Except String (Message × List TranslatedTurn) :=
  match completion.choices with
  | [] => Except.error "IndexError: choices"
  | msg :: _ =>
      match msg.tool_calls with
      | some calls =>
          if msg.role = "assistant" then
            (decodeToolCalls turn.id next_id calls).map fun ts => (msg, ts)
          else Except.ok (msg, [])
      | none => Except.ok (msg, [])

/-- Method `LlmTranslator._translate_next_turn`, with the backend's response as an
explicit parameter (`self.completion(...)` is the only external call).  On
success it stores the response message and the produced turns on the entry
being translated and reports whether an entry was translated, also exposing
the list of turns produced by this step (the source's local `turns`).
Decoding errors propagate as exceptions. -/
def _translate_next_turn (d : TurnsDict) (resp : Completion) :
    Except String (Bool × TurnsDict × List TranslatedTurn) :=
  match _build_conversation d with
  | (none, _, _) => Except.ok (false, d, [])
  | (some e, next_id, _) =>
      match _decode_completion e.turn next_id resp with
      | Except.error s => Except.error s
      | Except.ok (msg, ts) =>
          Except.ok (true, dictSet d e.turn.id
            { e with completion := some msg, translated := some ts }, ts)

/-- One `_translate_next_turn` call as driven by `LlmTranslator.process`:
any exception is caught and logged there, leaving the `turns` dict
untouched and ending the inner translation loop. -/
def processDecodeStep (d : TurnsDict) (resp : Completion) :
    Bool × TurnsDict × List TranslatedTurn :=
  match _translate_next_turn d resp with
  | Except.ok r => r
  | Except.error _ => (false, d, [])

/-- One interaction with the translator as scheduled by the driver loop:
either an absorption of a queued snapshot (`_update_turns`) or one
translation step with a given backend response. -/
inductive DriverAction where
  | absorb : List Turn → DriverAction
  | translate : Completion → DriverAction
deriving Repr

/-- Runs a list of actions from a state, collecting the `TranslatedTurn`s
produced (in emission order) by each decode step. -/
def runActions (d : TurnsDict) : List DriverAction → TurnsDict × List TranslatedTurn
  | [] => (d, [])
  | a :: rest =>
      let next : TurnsDict × List TranslatedTurn :=
        match a with
        | DriverAction.absorb q => (_update_turns d q, [])
        | DriverAction.translate resp =>
            let r := processDecodeStep d resp
            (r.2.1, r.2.2)
      let tail := runActions next.1 rest
      (tail.1, next.2 ++ tail.2)

/-- The TranslatedTurns emitted over a whole session starting from an empty
translator state. -/
def sessionEmitted (as : List DriverAction) : List TranslatedTurn :=
  (runActions [] as).2

/-- The translator's small-step relation: reachable states are produced
from the empty dict by absorptions and translation steps. -/
inductive TranslatorStep : TurnsDict → TurnsDict → Prop where
  | absorb (d : TurnsDict) (q : List Turn) : TranslatorStep d (_update_turns d q)
  | translate (d : TurnsDict) (resp : Completion) :
      TranslatorStep d (processDecodeStep d resp).2.1

/-- An exception raised inside `call_completion`
(`translate/remote_llm.py`), as far as `is_missing_tool_call` can observe
it: either an `httpx.HTTPStatusError` carrying the response body — the
outer `Option` is `none` when `response.json()` raises `JSONDecodeError`,
and the inner `Option String` is the `data["error"]["code"]` projection
(`none` when the body does not have that nested shape) — or any other
exception. -/
inductive CallException where
  | httpStatusError : Option (Option String) → CallException
  | otherError : CallException
deriving DecidableEq, Repr

/-- Predicate `is_missing_tool_call` from `translate/remote_llm.py`: true exactly for
an `HTTPStatusError` whose JSON body matches
`{"error": {"code": "tool_use_failed"}}`. -/
def is_missing_tool_call : CallException → Bool
  | CallException.httpStatusError (some (some c)) => c = "tool_use_failed"
  | _ => false

/-- The retry loop that tenacity's
`@retry(retry=retry_if_exception(is_missing_tool_call),
stop=stop_after_attempt(5))` wraps around `call_completion`: `f i` is the
outcome of the `i`-th identical request, `rem` the number of further
attempts `stop_after_attempt` still allows.  The second component is the
number of attempts performed. -/
def retryLoop (f : Nat → Except CallException Completion) :
    Nat → Nat → Except CallException Completion × Nat
  | i, 0 => (f i, i + 1)
  | i, rem + 1 =>
      match f i with
      | Except.ok r => (Except.ok r, i + 1)
      | Except.error e =>
          if is_missing_tool_call e then retryLoop f (i + 1) rem
          else (Except.error e, i + 1)

/-- Function `call_completion` under its decorator: at most five attempts in total
(`stop_after_attempt(5)`), retrying only on exceptions recognized by
`is_missing_tool_call`. -/
def call_completion_retried (f : Nat → Except CallException Completion) :
    Except CallException Completion × Nat :=
  retryLoop f 0 4

/-- The subprocess actions taken by the `finally` block of
`MicManager.stream_file` (`mic.py`). -/
structure CleanupOutcome where
  terminated : Bool
  killed : Bool
deriving DecidableEq, Repr

/-- The `finally` block of `MicManager.stream_file`: `process.terminate()`
runs unconditionally; then the feeder task and `process.wait()` are
awaited under `asyncio.timeout(5)`, and on `TimeoutError` the code runs
`process.kill()` only when `process.returncode is not None` — that is,
only when the subprocess has already exited.  `timedOut` says whether the
5-second wait raised `TimeoutError`, `returncode` is the value of
`process.returncode` at that moment (`none` while the subprocess is still
running). -/
def streamFileCleanup (timedOut : Bool) (returncode : Option Int) : CleanupOutcome :=
  { terminated := true
    killed := timedOut && returncode.isSome }

/-- First version of source turn 1 ("Hello"), as in the repository's
update tests. -/
def t1v1 : Turn :=
  { id := 1, text := "Hello", final := false,
    words := [{ type := "word", text := "Hello", speaker := some "A" }] }

/-- Revised version of source turn 1, with changed text. -/
def t1v2 : Turn :=
  { id := 1, text := "Hi", final := false,
    words := [{ type := "word", text := "Hi", speaker := some "A" }] }

/-- A backend response carrying one well-formed `translate` tool call with
the given translated text. -/
def respWith (s : String) : Completion :=
  { choices := [{ role := "assistant",
                  tool_calls := some [{ id := "call_1",
                                        function := { name := "translate",
                                                      arguments := Args.obj (some "A") (some s) } }] }] }

/-- The session used against claim C1: translate turn 1, then revise its
text (which invalidates the entry) and translate it again. -/
def c1Trace : List DriverAction :=
  [DriverAction.absorb [t1v1], DriverAction.translate (respWith "Bonjour"),
   DriverAction.absorb [t1v2], DriverAction.translate (respWith "Salut")]

/-- Turn `i` of the repository's pruning test
(`tests/translate/test_llm_translator_pruning.py`): words
`["Turn", str(i)]`. -/
def pruneTestTurn (i : Nat) : Turn :=
  { id := i, text := "Turn " ++ toString i, final := true,
    words := [{ type := "word", text := "Turn" },
              { type := "word", text := toString i }] }

/-- The cached completion the pruning test stores on turns 1..24: a dict
with no `tool_calls` key. -/
def pruneTestMsg : Message :=
  { role := "assistant" }

/-- Entry `i` of the pruning test state: turn `i` with a cached completion
and a single translated turn with id `i - 1`. -/
def pruneTestEntry (i : Nat) : Nat × LlmTranslationEntry :=
  (i, { turn := pruneTestTurn i,
        completion := some pruneTestMsg,
        translated := some [{ id := i - 1, original_id := i,
                              speaker := "Speaker",
                              text := "Translated " ++ toString i }] })

/-- The pruning test state: turns 1..24 translated (ids 0..23), turn 25
still dirty. -/
def pruneTestState : TurnsDict :=
  (List.range' 1 24).map pruneTestEntry ++ [(25, { turn := pruneTestTurn 25 })]

/-- Turn 1 of the repository's conversation-builder test. -/
def c4Turn1 : Turn :=
  { id := 1, text := "Hello world", final := true,
    words := [{ type := "word", text := "Hello", speaker := some "S1" },
              { type := "word", text := "world", speaker := some "S1" }] }

/-- Turn 2 of the conversation-builder test (the dirty entry that makes
the builder emit turn 1's history). -/
def c4Turn2 : Turn :=
  { id := 2, text := "Next turn", final := true,
    words := [{ type := "word", text := "Next", speaker := some "S1" },
              { type := "word", text := "turn", speaker := some "S1" }] }

/-- The cached tool call of the conversation-builder test (`id="call_1"`).
Per that test and `test_llm_translator_delete.py`, the stored tool output
for this call would be the emitted id rendered in decimal (`"0"`). -/
def c4Call : ToolCall :=
  { id := "call_1", function := { name := "translate", arguments := Args.obj none none } }

/-- The cached assistant message holding `c4Call`. -/
def c4Msg : Message :=
  { role := "assistant", tool_calls := some [c4Call] }

/-- The conversation-builder test state: entry 1 completed with one cached
tool call, entry 2 dirty. -/
def c4State : TurnsDict :=
  [(1, { turn := c4Turn1, completion := some c4Msg, translated := some [] }),
   (2, { turn := c4Turn2 })]

/-- Turn 2 of the repository's delete test
(`tests/translate/test_llm_translator_delete.py`). -/
def c5Turn2 : Turn :=
  { id := 2, text := " world", final := true,
    words := [{ type := "word", text := " world" }] }

/-- The `delete_turn(turn_id=0)` tool call of the delete test.  Its
arguments parse as a JSON object without `speaker`/`text` fields; the
source never inspects them because the name is not `"translate"`. -/
def c5DeleteCall : ToolCall :=
  { id := "call_2", function := { name := "delete_turn", arguments := Args.obj none none } }

/-- The follow-up `translate` call of the delete test. -/
def c5TranslateCall : ToolCall :=
  { id := "call_3",
    function := { name := "translate",
                  arguments := Args.obj (some "me") (some "Bonjour le monde") } }

/-- The delete-test response: `delete_turn(0)` then `translate(...)`. -/
def c5Resp : Completion :=
  { choices := [{ role := "assistant",
                  tool_calls := some [c5DeleteCall, c5TranslateCall] }] }

/-- The state used against claim C6: a single dirty entry for turn 1. -/
def c6State : TurnsDict :=
  [(1, { turn := t1v1 })]

/-- The response used against claim C6: a `translate` call whose arguments
fail JSON parsing, followed by a well-formed `translate` call. -/
def c6Resp : Completion :=
  { choices := [{ role := "assistant",
                  tool_calls := some
                    [{ id := "call_1",
                       function := { name := "translate", arguments := Args.parseError } },
                     { id := "call_2",
                       function := { name := "translate",
                                     arguments := Args.obj (some "A") (some "Bonjour") } }] }] }

/-- The attempt outcomes used against claim C7: the first four identical
requests fail with the recognized `tool_use_failed` error, the fifth
succeeds. -/
def c7Attempts : Nat → Except CallException Completion :=
  fun i =>
    if i < 4 then Except.error (CallException.httpStatusError (some (some "tool_use_failed")))
    else Except.ok { choices := [] }

/-- The body of one iteration of the first `_update_turns` loop, factored
out of `absorbAll` for the proofs: how one queued turn transforms the dict
and `min_diff`. -/
def absorbStep (d : TurnsDict) (m : Option Nat) (t : Turn) : TurnsDict × Option Nat :=
  if t.words.isEmpty then (d, m)
  else
    match dictGet d t.id with
    | none => (dictSet d t.id { turn := t }, minOpt m t.id)
    | some old =>
        if old.turn.text ≠ t.text then
          (dictSet d t.id { old with turn := t }, minOpt m t.id)
        else (d, m)

/-- Holds when `some v` is at most `x`; `none` (infinity) never is.  Used to reason
about the `min_diff` accumulator. -/
def oleq : Option Nat → Nat → Prop
  | none, _ => False
  | some v, x => v ≤ x

/-- Arguments on which the source's decode raises: a JSON parse failure or
a missing `speaker`/`text` field. -/
def badArgs : Args → Bool
  | Args.parseError => true
  | Args.obj s t => s.isNone || t.isNone

/-- The per-entry dirtiness invariant of the translator:
`completion` is null exactly when `translated` is null. -/
def cleanIff (d : TurnsDict) : Prop :=
  ∀ p ∈ d, ((p : Nat × LlmTranslationEntry).2.completion = none ↔ p.2.translated = none)

/-- Source turn 2 ("world"), used for the frame-effect witness. -/
def c2Turn2 : Turn :=
  { id := 2, text := "world", final := true,
    words := [{ type := "word", text := "world" }] }

/-- Revised source turn 2, with changed text. -/
def c2Turn2b : Turn :=
  { id := 2, text := "world!", final := true,
    words := [{ type := "word", text := "world!" }] }

/-- A state with two completed entries (turns 1 and 2). -/
def c2State : TurnsDict :=
  [(1, { turn := t1v1, completion := some pruneTestMsg, translated := some [] }),
   (2, { turn := c2Turn2, completion := some pruneTestMsg, translated := some [] })]

/-- Attempt outcomes that fail with the recognized error on every try. -/
def c7AllFail : Nat → Except CallException Completion :=
  fun _ => Except.error (CallException.httpStatusError (some (some "tool_use_failed")))

/-- A reachable translator state: the empty dict after absorbing one
snapshot. -/
def c8State : TurnsDict :=
  _update_turns [] [t1v1]

/-- Claim C1, counterexample: over the session `c1Trace` the translator
emits TranslatedTurn ids `[0, 0]` — after invalidation of the earlier
entry the next-id counter recomputed by `_build_conversation` reuses id 0,
so the emitted ids are neither duplicate-free nor strictly increasing. -/
theorem session_ids_repeat_after_invalidation :
    (sessionEmitted c1Trace).map TranslatedTurn.id = [0, 0] ∧
    ¬ List.Pairwise (fun a b => a < b) ((sessionEmitted c1Trace).map TranslatedTurn.id) := by
  decide

/-- Claim C3: on the state of the repository's pruning test (25 turns,
1..24 each with one cached translation, 25 dirty), `_build_conversation`
selects turn 25 with next-id counter 24, but the conversation spans all 25
entries — 73 messages, beginning with turn 1's user message — instead of
the claimed 15-entry window (43 messages starting at turn 11), and no
entry is pruned from the translator state (the function does not modify
the state at all). -/
theorem build_conversation_covers_all_entries :
    ((_build_conversation pruneTestState).1.map fun e => e.turn.id) = some 25 ∧
    (_build_conversation pruneTestState).2.1 = 24 ∧
    (_build_conversation pruneTestState).2.2.length = 73 ∧
    (_build_conversation pruneTestState).2.2.head? =
      some (ConvMsg.user (_build_user_message (pruneTestTurn 1))) := by
  refine ⟨by decide, by decide, by decide, by decide⟩

/-- Claim C4: on the conversation-builder test state the assembled
conversation does have the claimed shape — user message, cached assistant
message verbatim, one `tool` message per cached call, one `assistant "ok"`
— but the `tool` message content is the constant `"Recorded"`, not the
stored tool-output string (`"0"` for this call in the repository's tests);
`LlmTranslationEntry` stores no tool outputs at all. -/
theorem build_conversation_tool_content_recorded :
    (_build_conversation c4State).2.2 =
      [ConvMsg.user (_build_user_message c4Turn1),
       ConvMsg.assistantCached c4Msg,
       ConvMsg.tool "call_1" "Recorded",
       ConvMsg.assistantOk,
       ConvMsg.user (_build_user_message c4Turn2)] ∧
    ConvMsg.tool "call_1" "Recorded" ≠ ConvMsg.tool "call_1" "0" := by
  refine ⟨by decide, by decide⟩

/-- Claim C5: decoding the delete-test response at next-id 1 ignores the
`delete_turn` call completely — no id slot is consumed (the subsequent
`translate` call receives id 1, where the repository's test expects id 2),
no tool output `"Deleted"` is recorded anywhere, and nothing is marked
hidden (`TranslatedTurn` has no `hidden` field). -/
theorem decode_ignores_delete_turn :
    _decode_completion c5Turn2 1 c5Resp =
      Except.ok ({ role := "assistant",
                   tool_calls := some [c5DeleteCall, c5TranslateCall] },
                 [{ id := 1, original_id := 2, speaker := "me",
                    text := "Bonjour le monde" }]) := by
  rfl

/-- Claim C6, counterexample: on `c6State` and `c6Resp` the malformed tool
call is not skipped — `_translate_next_turn` raises, the driver step
produces no TranslatedTurn (the well-formed second call included) and the
entry is left dirty: its `completion` is still null afterwards, so the
entry is not marked translated. -/
theorem bad_args_entry_stays_dirty :
    ((dictGet (processDecodeStep c6State c6Resp).2.1 1).map
        LlmTranslationEntry.completion) = some none ∧
    (processDecodeStep c6State c6Resp).2.2 = [] ∧
    (_translate_next_turn c6State c6Resp).isOk = false := by
  decide

/-- Claim C7, counterexample: under `stop_after_attempt(5)` the decorated
`call_completion` performs five attempts on a persistent `tool_use_failed`
error — on `c7Attempts` it succeeds at the fifth attempt, which a
three-attempt policy would never reach. -/
theorem retry_uses_five_attempts :
    call_completion_retried c7Attempts = (Except.ok { choices := [] }, 5) ∧
    ¬ (call_completion_retried c7Attempts).2 ≤ 3 :=
  ⟨rfl, by decide⟩

/-- Claim C9: in the `finally` block of `MicManager.stream_file` the
subprocess is always terminated, but when the 5-second wait times out with
the decoder still running (`returncode` is `None`) the code does not kill
it — the guard `if process.returncode is not None` is inverted, so
`kill()` would only run for a subprocess that has already exited. -/
theorem stream_file_kill_condition_inverted :
    (streamFileCleanup true none).terminated = true ∧
    (streamFileCleanup true none).killed = false ∧
    (streamFileCleanup true (some 0)).killed = true := by
  decide

/-- Lemma: `dictSet` writes exactly key `k`. -/
theorem dictGet_dictSet (d : TurnsDict) (k q : Nat) (v : LlmTranslationEntry) :
    dictGet (dictSet d k v) q = if k = q then some v else dictGet d q := by
  induction d with
  | nil => simp [dictGet, dictSet]
  | cons p rest ih =>
      obtain ⟨k0, v0⟩ := p
      by_cases h0 : k0 = k
      · subst h0
        by_cases hq : k0 = q <;> simp [dictSet, dictGet, hq]
      · by_cases hq : k0 = q
        · subst hq
          have hkq : k ≠ k0 := fun h => h0 h.symm
          simp [dictSet, dictGet, h0, hkq]
        · simp [dictSet, dictGet, h0, hq, ih]

/-- Members of `dictSet d k v` are `(k, v)` or members of `d`. -/
theorem mem_dictSet (d : TurnsDict) (k : Nat) (v : LlmTranslationEntry)
    (p : Nat × LlmTranslationEntry) (h : p ∈ dictSet d k v) : p = (k, v) ∨ p ∈ d := by
  induction d with
  | nil => simpa [dictSet] using h
  | cons q rest ih =>
      obtain ⟨k0, v0⟩ := q
      by_cases h0 : k0 = k
      · simp only [dictSet, if_pos h0] at h
        rcases List.mem_cons.mp h with h | h
        · exact Or.inl h
        · exact Or.inr (List.mem_cons_of_mem _ h)
      · simp only [dictSet, if_neg h0] at h
        rcases List.mem_cons.mp h with h | h
        · exact Or.inr (h ▸ List.mem_cons_self _ _)
        · rcases ih h with h | h
          · exact Or.inl h
          · exact Or.inr (List.mem_cons_of_mem _ h)

/-- A successful lookup is a member. -/
theorem dictGet_mem (d : TurnsDict) (k : Nat) (e : LlmTranslationEntry)
    (h : dictGet d k = some e) : (k, e) ∈ d := by
  induction d with
  | nil => cases h
  | cons p rest ih =>
      obtain ⟨k0, v0⟩ := p
      by_cases h0 : k0 = k
      · subst h0
        have h2 : v0 = e := by simpa [dictGet] using h
        exact h2 ▸ List.mem_cons_self _ _
      · simp only [dictGet, if_neg h0] at h
        exact List.mem_cons_of_mem _ (ih h)

/-- Lemma: `minOpt m x` is at most `x`. -/
theorem oleq_minOpt_self (m : Option Nat) (x : Nat) : oleq (minOpt m x) x := by
  cases m with
  | none => simp [minOpt, oleq]
  | some v => simp [minOpt, oleq]

/-- Lemma: `minOpt` only decreases the accumulator. -/
theorem oleq_minOpt_of_oleq (m : Option Nat) (y x : Nat) (h : oleq m x) :
    oleq (minOpt m y) x := by
  cases m with
  | none => exact h.elim
  | some v =>
      simp only [minOpt, oleq] at h ⊢
      exact le_trans (Nat.min_le_left v y) h

/-- Lemma: `absorbAll` processes the head of the queue with `absorbStep`. -/
theorem absorbAll_cons (d : TurnsDict) (m : Option Nat) (t : Turn) (rest : List Turn) :
    absorbAll d m (t :: rest) = absorbAll (absorbStep d m t).1 (absorbStep d m t).2 rest := by
  by_cases hw : t.words.isEmpty
  · simp [absorbAll, absorbStep, hw]
  · cases hg : dictGet d t.id with
    | none => simp [absorbAll, absorbStep, hw, hg]
    | some old =>
        by_cases ht : old.turn.text = t.text
        · simp [absorbAll, absorbStep, hw, hg, ht]
        · simp [absorbAll, absorbStep, hw, hg, ht]

/-- What one absorption step can do: leave everything unchanged, or write
one entry carrying the queued turn at its id (a fresh entry or the old one
with its `turn` replaced) while folding that id into `min_diff`. -/
theorem absorbStep_split (d : TurnsDict) (m : Option Nat) (t : Turn) :
    absorbStep d m t = (d, m) ∨
    ∃ e : LlmTranslationEntry, e.turn = t ∧
      absorbStep d m t = (dictSet d t.id e, minOpt m t.id) ∧
      (e = { turn := t } ∨
        ∃ old, dictGet d t.id = some old ∧ e = { old with turn := t }) := by
  by_cases hw : t.words.isEmpty
  · left; simp [absorbStep, hw]
  · cases hg : dictGet d t.id with
    | none =>
        right
        exact ⟨{ turn := t }, rfl, by simp [absorbStep, hw, hg], Or.inl rfl⟩
    | some old =>
        by_cases ht : old.turn.text = t.text
        · left; simp [absorbStep, hw, hg, ht]
        · right
          exact ⟨{ old with turn := t }, rfl, by simp [absorbStep, hw, hg, ht],
            Or.inr ⟨old, rfl, rfl⟩⟩

/-- A step on a turn with empty words is a no-op. -/
theorem absorbStep_skip (d : TurnsDict) (m : Option Nat) (t : Turn)
    (hw : t.words.isEmpty = true) : absorbStep d m t = (d, m) := by
  simp [absorbStep, hw]

/-- A step on a known turn with unchanged text is a no-op. -/
theorem absorbStep_noop (d : TurnsDict) (m : Option Nat) (t : Turn)
    (e : LlmTranslationEntry) (hg : dictGet d t.id = some e)
    (ht : e.turn.text = t.text) : absorbStep d m t = (d, m) := by
  by_cases hw : t.words.isEmpty
  · exact absorbStep_skip d m t hw
  · simp [absorbStep, hw, hg, ht]

/-- After a step on a turn with non-empty words, the dict holds an entry
at the turn's id whose stored text is the queued text. -/
theorem absorbStep_text (d : TurnsDict) (m : Option Nat) (t : Turn)
    (hw : t.words.isEmpty = false) :
    ∃ e, dictGet (absorbStep d m t).1 t.id = some e ∧ e.turn.text = t.text := by
  cases hg : dictGet d t.id with
  | none =>
      refine ⟨{ turn := t }, ?_, rfl⟩
      simp [absorbStep, hw, hg, dictGet_dictSet]
  | some old =>
      by_cases ht : old.turn.text = t.text
      · refine ⟨old, ?_, ht⟩
        simp [absorbStep, hw, hg, ht]
      · refine ⟨{ old with turn := t }, ?_, rfl⟩
        simp [absorbStep, hw, hg, ht, dictGet_dictSet]

/-- Lemma: `min_diff` only decreases over the absorption loop. -/
theorem absorbAll_min_mono (q : List Turn) :
    ∀ (d : TurnsDict) (m : Option Nat) (x : Nat), oleq m x → oleq (absorbAll d m q).2 x := by
  induction q with
  | nil => intro d m x h; exact h
  | cons t rest ih =>
      intro d m x h
      rw [absorbAll_cons]
      rcases absorbStep_split d m t with hstep | ⟨e, _, hstep, _⟩
      · rw [hstep]; exact ih d m x h
      · rw [hstep]; exact ih _ _ x (oleq_minOpt_of_oleq m t.id x h)

/-- Once `min_diff` is finite it stays finite. -/
theorem absorbAll_min_isSome (q : List Turn) :
    ∀ (d : TurnsDict) (v : Nat), ∃ w, (absorbAll d (some v) q).2 = some w := by
  induction q with
  | nil => intro d v; exact ⟨v, rfl⟩
  | cons t rest ih =>
      intro d v
      rw [absorbAll_cons]
      rcases absorbStep_split d (some v) t with hstep | ⟨e, _, hstep, _⟩
      · rw [hstep]; exact ih d v
      · rw [hstep]; exact ih _ (min v t.id)

/-- If `min_diff` ends at infinity, the absorption loop changed nothing. -/
theorem absorbAll_none_eq (q : List Turn) :
    ∀ d : TurnsDict, (absorbAll d none q).2 = none → (absorbAll d none q).1 = d := by
  induction q with
  | nil => intro d _; rfl
  | cons t rest ih =>
      intro d hm
      rw [absorbAll_cons] at hm ⊢
      rcases absorbStep_split d none t with hstep | ⟨e, _, hstep, _⟩
      · rw [hstep] at hm ⊢; exact ih d hm
      · rw [hstep] at hm
        obtain ⟨w, hw⟩ := absorbAll_min_isSome rest (dictSet d t.id e) t.id
        rw [show minOpt none t.id = some t.id from rfl] at hm
        rw [hw] at hm
        cases hm

/-- Every lookup after absorption is either unchanged from before or hits
an entry written at its own turn id, an id that `min_diff` bounds. -/
theorem absorbAll_get (q : List Turn) :
    ∀ (d : TurnsDict) (m : Option Nat) (k : Nat),
      dictGet (absorbAll d m q).1 k = dictGet d k ∨
      ∃ e, dictGet (absorbAll d m q).1 k = some e ∧ e.turn.id = k ∧
        oleq (absorbAll d m q).2 k := by
  induction q with
  | nil => intro d m k; exact Or.inl rfl
  | cons t rest ih =>
      intro d m k
      rw [absorbAll_cons]
      rcases absorbStep_split d m t with hstep | ⟨e, het, hstep, _⟩
      · rw [hstep]; exact ih d m k
      · rw [hstep]
        rcases ih (dictSet d t.id e) (minOpt m t.id) k with h | ⟨e2, h1, h2, h3⟩
        · rw [h, dictGet_dictSet]
          by_cases hk : t.id = k
          · subst hk
            right
            refine ⟨e, by simp, by rw [het], ?_⟩
            exact absorbAll_min_mono rest _ _ _ (oleq_minOpt_self m t.id)
          · left; simp [hk]
        · exact Or.inr ⟨e2, h1, h2, h3⟩

/-- Keys outside the queued snapshot are untouched by absorption. -/
theorem absorbAll_get_notmem (q : List Turn) :
    ∀ (d : TurnsDict) (m : Option Nat) (k : Nat), k ∉ q.map Turn.id →
      dictGet (absorbAll d m q).1 k = dictGet d k := by
  induction q with
  | nil => intro d m k _; rfl
  | cons t rest ih =>
      intro d m k hk
      have hk1 : k ≠ t.id := by
        intro h; exact hk (by simp [h])
      have hk2 : k ∉ rest.map Turn.id := by
        intro h; exact hk (by simp [h])
      rw [absorbAll_cons]
      rcases absorbStep_split d m t with hstep | ⟨e, _, hstep, _⟩
      · rw [hstep]; exact ih d m k hk2
      · rw [hstep, ih _ _ k hk2, dictGet_dictSet]
        rw [if_neg fun h => hk1 h.symm]

/-- After absorbing a snapshot with pairwise distinct turn ids, every
queued turn with non-empty words is stored with exactly its queued text. -/
theorem absorbAll_text (q : List Turn) :
    ∀ (d : TurnsDict) (m : Option Nat), (q.map Turn.id).Nodup →
      ∀ t ∈ q, t.words.isEmpty = false →
        ∃ e, dictGet (absorbAll d m q).1 t.id = some e ∧ e.turn.text = t.text := by
  induction q with
  | nil => intro d m _ t ht; cases ht
  | cons t0 rest ih =>
      intro d m hnd t htmem hw
      have hnd2 : (∀ x ∈ rest, ¬ x.id = t0.id) ∧ (rest.map Turn.id).Nodup := by
        simpa using hnd
      rw [absorbAll_cons]
      rcases List.mem_cons.mp htmem with rfl | hmem
      · have hfr : t.id ∉ rest.map Turn.id := by
          intro hmem2
          obtain ⟨x, hx, hxe⟩ := List.mem_map.mp hmem2
          exact hnd2.1 x hx hxe
        rw [absorbAll_get_notmem rest _ _ _ hfr]
        exact absorbStep_text d m t hw
      · exact ih _ _ hnd2.2 t hmem hw

/-- If every queued turn with non-empty words is already known with its
queued text, absorption is a complete no-op. -/
theorem absorbAll_noop (q : List Turn) :
    ∀ (d : TurnsDict) (m : Option Nat),
      (∀ t ∈ q, t.words.isEmpty = false →
        ∃ e, dictGet d t.id = some e ∧ e.turn.text = t.text) →
      absorbAll d m q = (d, m) := by
  induction q with
  | nil => intro d m _; rfl
  | cons t0 rest ih =>
      intro d m h
      rw [absorbAll_cons]
      have hstep : absorbStep d m t0 = (d, m) := by
        by_cases hw : t0.words.isEmpty
        · exact absorbStep_skip d m t0 hw
        · obtain ⟨e, hg, ht⟩ :=
            h t0 (List.mem_cons_self _ _) (by simpa using hw)
          exact absorbStep_noop d m t0 e hg ht
      rw [hstep]
      exact ih d m fun t ht hw => h t (List.mem_cons_of_mem _ ht) hw

/-- Lookup through the reset loop when `min_diff` is finite. -/
theorem dictGet_resetFrom_some (v : Nat) (d : TurnsDict) (k : Nat) :
    dictGet (resetFrom (some v) d) k = (dictGet d k).map (resetEntry v) := by
  induction d with
  | nil => rfl
  | cons p rest ih =>
      obtain ⟨k0, v0⟩ := p
      by_cases hk : k0 = k
      · simp [resetFrom, dictGet, hk]
      · simpa [resetFrom, dictGet, hk] using ih

/-- The reset never changes the stored turn. -/
theorem resetEntry_turn (v : Nat) (e : LlmTranslationEntry) :
    (resetEntry v e).turn = e.turn := by
  by_cases h : v ≤ e.turn.id <;> simp [resetEntry, h]

/-- How the reset acts on one entry: entries at or above `min_diff` end
with both caches null, entries below are untouched. -/
theorem resetEntry_spec (v : Nat) (e : LlmTranslationEntry) :
    (v ≤ e.turn.id ∧ (resetEntry v e).completion = none ∧
      (resetEntry v e).translated = none) ∨
    (¬ v ≤ e.turn.id ∧ resetEntry v e = e) := by
  by_cases h : v ≤ e.turn.id
  · exact Or.inl ⟨h, by simp [resetEntry, h]⟩
  · exact Or.inr ⟨h, by simp [resetEntry, h]⟩

/-- Claim C2: after `_update_turns` absorbs the queued snapshot, with
`min_dirty` the minimum id among newly inserted turns and known turns
whose text changed (the source's `min_diff`): every entry with turn id at
least `min_dirty` has both `completion` and `translated` null, every entry
with a smaller turn id is exactly as it was before the absorption, and if
no turn was inserted or text-changed (`min_diff` stayed infinite) the
state is completely unchanged. -/
theorem update_turns_frame (d : TurnsDict) (q : List Turn) :
    (∀ m, absorbMin d q = some m →
      (∀ p ∈ _update_turns d q, m ≤ p.2.turn.id →
        p.2.completion = none ∧ p.2.translated = none) ∧
      (∀ k e, dictGet (_update_turns d q) k = some e → e.turn.id < m →
        dictGet d k = some e)) ∧
    (absorbMin d q = none → _update_turns d q = d) := by
  constructor
  · intro m hm
    have hud : _update_turns d q = resetFrom (some m) (absorbAll d none q).1 := by
      unfold _update_turns
      rw [show (absorbAll d none q).2 = some m from hm]
    constructor
    · intro p hp hle
      rw [hud] at hp
      simp only [resetFrom, List.mem_map] at hp
      obtain ⟨p0, _, rfl⟩ := hp
      rcases resetEntry_spec m p0.2 with ⟨_, h2, h3⟩ | ⟨h1, h2⟩
      · exact ⟨h2, h3⟩
      · rw [show ((p0.1, resetEntry m p0.2) : Nat × LlmTranslationEntry).2 =
              resetEntry m p0.2 from rfl, h2] at hle
        exact absurd hle h1
    · intro k e he hlt
      rw [hud, dictGet_resetFrom_some] at he
      cases hg : dictGet (absorbAll d none q).1 k with
      | none => rw [hg] at he; cases he
      | some e0 =>
          rw [hg] at he
          have he0 : resetEntry m e0 = e := by simpa using he
          rcases resetEntry_spec m e0 with ⟨h1, _, _⟩ | ⟨_, h2⟩
          · have hte : e.turn.id = e0.turn.id := by
              rw [← he0, resetEntry_turn]
            omega
          · rw [h2] at he0
            rcases absorbAll_get q d none k with hsame | ⟨e1, h3, h4, h5⟩
            · rw [← hsame, hg, he0]
            · rw [hg] at h3
              have he1 : e1 = e0 := by injection h3 with h3; exact h3.symm
              rw [show (absorbAll d none q).2 = some m from hm] at h5
              have hmk : m ≤ k := h5
              rw [he1] at h4
              rw [he0] at h4
              omega
  · intro hm
    have hm2 : (absorbAll d none q).2 = none := hm
    unfold _update_turns
    rw [hm2]
    exact absorbAll_none_eq q d hm2

/-- Witness for `update_turns_frame`: revising turn 2's text in `c2State`
gives `min_dirty = 2`, and the theorem recovers turn 1's untouched entry. -/
theorem update_turns_frame_witness :
    dictGet c2State 1 =
      some { turn := t1v1, completion := some pruneTestMsg, translated := some [] } :=
  ((update_turns_frame c2State [c2Turn2b]).1 2 (by decide)).2 1
    { turn := t1v1, completion := some pruneTestMsg, translated := some [] }
    (by decide) (by decide)

/-- Claim C10: absorption is idempotent.  After `_update_turns` has
absorbed a snapshot whose turn ids are pairwise distinct, running the
absorption again with the same queued snapshot performs no insertion, no
turn update and no reset — `absorbAll` returns the state unchanged with
`min_diff` still infinite — and therefore `_update_turns` is a fixpoint on
that snapshot. -/
theorem update_turns_idempotent (d : TurnsDict) (q : List Turn)
    (hnd : (q.map Turn.id).Nodup) :
    absorbAll (_update_turns d q) none q = (_update_turns d q, none) ∧
    _update_turns (_update_turns d q) q = _update_turns d q := by
  have habs : absorbAll (_update_turns d q) none q = (_update_turns d q, none) := by
    apply absorbAll_noop
    intro t ht hw
    obtain ⟨e, he, hetext⟩ := absorbAll_text q d none hnd t ht hw
    cases hm : (absorbAll d none q).2 with
    | none =>
        refine ⟨e, ?_, hetext⟩
        unfold _update_turns
        rw [hm]
        exact he
    | some v =>
        refine ⟨resetEntry v e, ?_, ?_⟩
        · unfold _update_turns
          rw [hm, dictGet_resetFrom_some, he]
          rfl
        · rw [show (resetEntry v e).turn.text = e.turn.text from by
            rw [resetEntry_turn]]
          exact hetext
  refine ⟨habs, ?_⟩
  show resetFrom (absorbAll (_update_turns d q) none q).2
      (absorbAll (_update_turns d q) none q).1 = _update_turns d q
  rw [habs]
  rfl

/-- Witness for `update_turns_idempotent` at a concrete snapshot. -/
theorem update_turns_idempotent_witness :
    absorbAll (_update_turns [] [t1v1]) none [t1v1] = (_update_turns [] [t1v1], none) ∧
    _update_turns (_update_turns [] [t1v1]) [t1v1] = _update_turns [] [t1v1] :=
  update_turns_idempotent [] [t1v1] (by decide)

/-- Lemma: `dictSet` preserves the dirtiness invariant when the written entry
satisfies it. -/
theorem cleanIff_dictSet (d : TurnsDict) (k : Nat) (v : LlmTranslationEntry)
    (hd : cleanIff d) (hv : v.completion = none ↔ v.translated = none) :
    cleanIff (dictSet d k v) := by
  intro p hp
  rcases mem_dictSet d k v p hp with rfl | hp2
  · exact hv
  · exact hd p hp2

/-- The absorption loop preserves the dirtiness invariant: fresh entries
have both caches null, and turn replacement does not touch the caches. -/
theorem cleanIff_absorbAll (q : List Turn) :
    ∀ (d : TurnsDict) (m : Option Nat), cleanIff d → cleanIff (absorbAll d m q).1 := by
  induction q with
  | nil => intro d m hd; exact hd
  | cons t rest ih =>
      intro d m hd
      rw [absorbAll_cons]
      rcases absorbStep_split d m t with hstep | ⟨e, _, hstep, hkind⟩
      · rw [hstep]; exact ih d m hd
      · rw [hstep]
        refine ih _ _ (cleanIff_dictSet d t.id e hd ?_)
        rcases hkind with rfl | ⟨old, hold, rfl⟩
        · simp
        · exact hd (t.id, old) (dictGet_mem d t.id old hold)

/-- Lemma: `_update_turns` preserves the dirtiness invariant: the reset loop
nulls both caches together. -/
theorem cleanIff_update_turns (d : TurnsDict) (q : List Turn)
    (hd : cleanIff d) : cleanIff (_update_turns d q) := by
  have hin : cleanIff (absorbAll d none q).1 := cleanIff_absorbAll q d none hd
  unfold _update_turns
  cases hm : (absorbAll d none q).2 with
  | none => exact hin
  | some v =>
      intro p hp
      simp only [resetFrom, List.mem_map] at hp
      obtain ⟨p0, hp0, rfl⟩ := hp
      rcases resetEntry_spec v p0.2 with ⟨_, h2, h3⟩ | ⟨_, h2⟩
      · show (resetEntry v p0.2).completion = none ↔ (resetEntry v p0.2).translated = none
        simp [h2, h3]
      · show (resetEntry v p0.2).completion = none ↔ (resetEntry v p0.2).translated = none
        rw [h2]
        exact hin p0 hp0

/-- A translation step preserves the dirtiness invariant: on success both
caches are set to non-null values at once, on an exception the state is
untouched. -/
theorem cleanIff_processDecodeStep (d : TurnsDict) (resp : Completion)
    (hd : cleanIff d) : cleanIff (processDecodeStep d resp).2.1 := by
  unfold processDecodeStep _translate_next_turn
  cases hb : _build_conversation d with
  | mk oe rest =>
      obtain ⟨nid, conv⟩ := rest
      cases oe with
      | none => exact hd
      | some e =>
          dsimp only
          cases hdec : _decode_completion e.turn nid resp with
          | error s => exact hd
          | ok pr =>
              obtain ⟨msg, ts⟩ := pr
              refine cleanIff_dictSet d e.turn.id _ hd ?_
              simp

/-- Claim C8: in every reachable translator state — empty at start, then
closed under snapshot absorption and translation steps — each entry's
`completion` is null exactly when its `translated` is null (the entry is
dirty exactly when both are null). -/
theorem clean_iff_invariant (d : TurnsDict)
    (h : Relation.ReflTransGen TranslatorStep [] d) :
    ∀ p ∈ d, ((p : Nat × LlmTranslationEntry).2.completion = none ↔
      p.2.translated = none) := by
  have hinv : cleanIff d := by
    induction h with
    | refl => intro p hp; cases hp
    | tail hab hbc ih =>
        cases hbc with
        | absorb q => exact cleanIff_update_turns _ q ih
        | translate resp => exact cleanIff_processDecodeStep _ resp ih
  exact hinv

/-- Witness for `clean_iff_invariant`: the state reached by absorbing one
snapshot, checked at its single entry. -/
theorem clean_iff_invariant_witness :
    (((1, ({ turn := t1v1 } : LlmTranslationEntry)) :
        Nat × LlmTranslationEntry).2.completion = none ↔
      ((1, ({ turn := t1v1 } : LlmTranslationEntry)) :
        Nat × LlmTranslationEntry).2.translated = none) :=
  clean_iff_invariant c8State
    (Relation.ReflTransGen.single (TranslatorStep.absorb [] [t1v1]))
    (1, { turn := t1v1 }) (by decide)

/-- A `translate` tool call with bad arguments makes the whole tool-call
decode raise, whatever came before or after it in the list. -/
theorem decodeToolCalls_error_of_bad (originalId : Nat) (calls : List ToolCall) :
    ∀ nid : Nat,
      (∃ c ∈ calls, c.function.name = "translate" ∧ badArgs c.function.arguments = true) →
      ∃ s, decodeToolCalls originalId nid calls = Except.error s := by
  induction calls with
  | nil => rintro nid ⟨c, hc, _⟩; cases hc
  | cons c0 rest ih =>
      rintro nid ⟨c, hc, hname, hbad⟩
      rcases List.mem_cons.mp hc with rfl | hmem
      · rw [show decodeToolCalls originalId nid (c :: rest) =
            (if c.function.name = "translate" then
              match c.function.arguments with
              | Args.parseError => Except.error "json.decoder.JSONDecodeError"
              | Args.obj sp tx =>
                  match sp, tx with
                  | some s, some t =>
                      (decodeToolCalls originalId (nid + 1) rest).map
                        (fun ts => { id := nid, original_id := originalId,
                                     speaker := s, text := t } :: ts)
                  | none, _ => Except.error "KeyError: speaker"
                  | some _, none => Except.error "KeyError: text"
            else decodeToolCalls originalId nid rest) from rfl]
        rw [if_pos hname]
        cases harg : c.function.arguments with
        | parseError => exact ⟨_, rfl⟩
        | obj sp tx =>
            rw [harg] at hbad
            cases sp with
            | none => exact ⟨_, rfl⟩
            | some s0 =>
                cases tx with
                | none => exact ⟨_, rfl⟩
                | some t0 => simp [badArgs] at hbad
      · by_cases hn : c0.function.name = "translate"
        · rw [show decodeToolCalls originalId nid (c0 :: rest) =
              (if c0.function.name = "translate" then
                match c0.function.arguments with
                | Args.parseError => Except.error "json.decoder.JSONDecodeError"
                | Args.obj sp tx =>
                    match sp, tx with
                    | some s, some t =>
                        (decodeToolCalls originalId (nid + 1) rest).map
                          (fun ts => { id := nid, original_id := originalId,
                                       speaker := s, text := t } :: ts)
                    | none, _ => Except.error "KeyError: speaker"
                    | some _, none => Except.error "KeyError: text"
              else decodeToolCalls originalId nid rest) from rfl]
          rw [if_pos hn]
          cases c0.function.arguments with
          | parseError => exact ⟨_, rfl⟩
          | obj sp tx =>
              cases sp with
              | none => exact ⟨_, rfl⟩
              | some s0 =>
                  cases tx with
                  | none => exact ⟨_, rfl⟩
                  | some t0 =>
                      obtain ⟨s1, hs1⟩ := ih (nid + 1) ⟨c, hmem, hname, hbad⟩
                      rw [hs1]
                      exact ⟨s1, rfl⟩
        · rw [show decodeToolCalls originalId nid (c0 :: rest) =
              (if c0.function.name = "translate" then
                match c0.function.arguments with
                | Args.parseError => Except.error "json.decoder.JSONDecodeError"
                | Args.obj sp tx =>
                    match sp, tx with
                    | some s, some t =>
                        (decodeToolCalls originalId (nid + 1) rest).map
                          (fun ts => { id := nid, original_id := originalId,
                                       speaker := s, text := t } :: ts)
                    | none, _ => Except.error "KeyError: speaker"
                    | some _, none => Except.error "KeyError: text"
              else decodeToolCalls originalId nid rest) from rfl]
          rw [if_neg hn]
          exact ih nid ⟨c, hmem, hname, hbad⟩

/-- Claim C6 (amended): when the backend's response is an assistant
message whose tool-call list contains a `translate` call with arguments
that fail JSON parsing or lack a required field, the whole decode raises —
so the driver step catches the exception, produces no TranslatedTurn (the
well-formed calls included) and leaves the state, in particular the dirty
entry, completely unchanged. -/
theorem decode_bad_translate_aborts (d : TurnsDict) (resp : Completion)
    (msg : Message) (calls : List ToolCall)
    (h1 : resp.choices.head? = some msg)
    (h2 : msg.role = "assistant")
    (h3 : msg.tool_calls = some calls)
    (h4 : ∃ c ∈ calls, c.function.name = "translate" ∧
      badArgs c.function.arguments = true) :
    processDecodeStep d resp = (false, d, []) := by
  have hdec : ∀ (turn : Turn) (nid : Nat),
      ∃ s, _decode_completion turn nid resp = Except.error s := by
    intro turn nid
    cases hch : resp.choices with
    | nil => rw [hch] at h1; cases h1
    | cons m0 tail =>
        rw [hch] at h1
        have hm0 : m0 = msg := by simpa using h1
        subst hm0
        obtain ⟨s, hs⟩ := decodeToolCalls_error_of_bad turn.id calls nid h4
        refine ⟨s, ?_⟩
        unfold _decode_completion
        rw [hch]
        dsimp only
        rw [h3]
        dsimp only
        rw [if_pos h2, hs]
        rfl
  unfold processDecodeStep _translate_next_turn
  cases hb : _build_conversation d with
  | mk oe rest =>
      obtain ⟨nid, conv⟩ := rest
      cases oe with
      | none => rfl
      | some e =>
          dsimp only
          obtain ⟨s, hs⟩ := hdec e.turn nid
          rw [hs]

/-- Witness for `decode_bad_translate_aborts` on the concrete bad-args
response. -/
theorem decode_bad_translate_aborts_witness :
    processDecodeStep c6State c6Resp = (false, c6State, []) :=
  decode_bad_translate_aborts c6State c6Resp
    { role := "assistant",
      tool_calls := some
        [{ id := "call_1",
           function := { name := "translate", arguments := Args.parseError } },
         { id := "call_2",
           function := { name := "translate",
                         arguments := Args.obj (some "A") (some "Bonjour") } }] }
    [{ id := "call_1",
       function := { name := "translate", arguments := Args.parseError } },
     { id := "call_2",
       function := { name := "translate",
                     arguments := Args.obj (some "A") (some "Bonjour") } }]
    rfl rfl rfl (by decide)

/-- Ids produced by the tool-call decode loop are bounded below by the
counter and strictly increasing in production order. -/
theorem decodeToolCalls_ids (originalId : Nat) (calls : List ToolCall) :
    ∀ (nid : Nat) (ts : List TranslatedTurn),
      decodeToolCalls originalId nid calls = Except.ok ts →
      List.Pairwise (fun a b => a < b) (ts.map TranslatedTurn.id) ∧
        ∀ t ∈ ts, nid ≤ t.id := by
  induction calls with
  | nil =>
      intro nid ts h
      have h2 : (Except.ok ([] : List TranslatedTurn) :
          Except String (List TranslatedTurn)) = Except.ok ts := h
      injection h2 with h3
      subst h3
      simp
  | cons c0 rest ih =>
      intro nid ts h
      by_cases hn : c0.function.name = "translate"
      · rw [show decodeToolCalls originalId nid (c0 :: rest) =
            (if c0.function.name = "translate" then
              match c0.function.arguments with
              | Args.parseError => Except.error "json.decoder.JSONDecodeError"
              | Args.obj sp tx =>
                  match sp, tx with
                  | some s, some t =>
                      (decodeToolCalls originalId (nid + 1) rest).map
                        (fun ts => { id := nid, original_id := originalId,
                                     speaker := s, text := t } :: ts)
                  | none, _ => Except.error "KeyError: speaker"
                  | some _, none => Except.error "KeyError: text"
            else decodeToolCalls originalId nid rest) from rfl, if_pos hn] at h
        cases harg : c0.function.arguments with
        | parseError => rw [harg] at h; cases h
        | obj sp tx =>
            rw [harg] at h
            cases sp with
            | none => cases h
            | some s0 =>
                cases tx with
                | none => cases h
                | some t0 =>
                    cases hrec : decodeToolCalls originalId (nid + 1) rest with
                    | error s => rw [hrec] at h; cases h
                    | ok ts0 =>
                        rw [hrec] at h
                        simp only [Except.map] at h
                        injection h with h3
                        subst h3
                        obtain ⟨hpw, hlb⟩ := ih (nid + 1) ts0 hrec
                        constructor
                        · simp only [List.map_cons]
                          refine List.Pairwise.cons ?_ hpw
                          intro b hb
                          obtain ⟨t, htm, rfl⟩ := List.mem_map.mp hb
                          exact Nat.lt_of_lt_of_le (Nat.lt_succ_self nid) (hlb t htm)
                        · intro t htm
                          rcases List.mem_cons.mp htm with rfl | htm2
                          · exact Nat.le_refl nid
                          · exact Nat.le_trans (Nat.le_succ nid) (hlb t htm2)
      · rw [show decodeToolCalls originalId nid (c0 :: rest) =
            (if c0.function.name = "translate" then
              match c0.function.arguments with
              | Args.parseError => Except.error "json.decoder.JSONDecodeError"
              | Args.obj sp tx =>
                  match sp, tx with
                  | some s, some t =>
                      (decodeToolCalls originalId (nid + 1) rest).map
                        (fun ts => { id := nid, original_id := originalId,
                                     speaker := s, text := t } :: ts)
                  | none, _ => Except.error "KeyError: speaker"
                  | some _, none => Except.error "KeyError: text"
            else decodeToolCalls originalId nid rest) from rfl, if_neg hn] at h
        exact ih nid ts h

/-- Claim C1 (amended): within one completion decode the produced
TranslatedTurn ids are strictly increasing in emission order, all at least
the `next_id` counter handed to the decode (ids may still repeat across a
session once an earlier entry is invalidated, as `_build_conversation`
recomputes the counter from the surviving translations). -/
theorem decode_ids_strictly_increasing (turn : Turn) (next_id : Nat)
    (resp : Completion) (msg : Message) (ts : List TranslatedTurn)
    (h : _decode_completion turn next_id resp = Except.ok (msg, ts)) :
    List.Pairwise (fun a b => a < b) (ts.map TranslatedTurn.id) ∧
      ∀ t ∈ ts, next_id ≤ t.id := by
  unfold _decode_completion at h
  cases hch : resp.choices with
  | nil => rw [hch] at h; cases h
  | cons m0 tail =>
      rw [hch] at h
      dsimp only at h
      cases htc : m0.tool_calls with
      | none =>
          rw [htc] at h
          dsimp only at h
          injection h with h2
          have h3 : ([] : List TranslatedTurn) = ts := congrArg Prod.snd h2
          subst h3
          simp
      | some calls =>
          rw [htc] at h
          dsimp only at h
          by_cases hrole : m0.role = "assistant"
          · rw [if_pos hrole] at h
            cases hrec : decodeToolCalls turn.id next_id calls with
            | error s => rw [hrec] at h; cases h
            | ok ts0 =>
                rw [hrec] at h
                simp only [Except.map] at h
                injection h with h2
                have h3 : ts0 = ts := congrArg Prod.snd h2
                subst h3
                exact decodeToolCalls_ids turn.id calls next_id ts0 hrec
          · rw [if_neg hrole] at h
            injection h with h2
            have h3 : ([] : List TranslatedTurn) = ts := congrArg Prod.snd h2
            subst h3
            simp

/-- Witness for `decode_ids_strictly_increasing` on a concrete response. -/
theorem decode_ids_strictly_increasing_witness :
    List.Pairwise (fun a b => a < b)
      (([{ id := 0, original_id := 1, speaker := "A", text := "Bonjour" }] :
        List TranslatedTurn).map TranslatedTurn.id) :=
  (decode_ids_strictly_increasing t1v1 0 (respWith "Bonjour")
    { role := "assistant",
      tool_calls := some [{ id := "call_1",
                            function := { name := "translate",
                                          arguments := Args.obj (some "A") (some "Bonjour") } }] }
    [{ id := 0, original_id := 1, speaker := "A", text := "Bonjour" }] rfl).1

/-- The decorated `call_completion` never makes more than
`i + rem + 1` attempts starting from attempt `i`. -/
theorem retryLoop_attempts_le (f : Nat → Except CallException Completion) :
    ∀ (rem i : Nat), (retryLoop f i rem).2 ≤ i + rem + 1 := by
  intro rem
  induction rem with
  | zero => intro i; exact Nat.le_refl (i + 1)
  | succ rem ih =>
      intro i
      show (retryLoop f i (rem + 1)).2 ≤ i + (rem + 1) + 1
      unfold retryLoop
      cases f i with
      | ok r => dsimp only; omega
      | error e =>
          dsimp only
          by_cases hr : is_missing_tool_call e
          · rw [if_pos hr]
            have := ih (i + 1)
            omega
          · rw [if_neg hr]
            dsimp only
            omega

/-- If every attempt fails with a retryable error, the loop exhausts its
budget and surfaces that error. -/
theorem retryLoop_all_fail (f : Nat → Except CallException Completion)
    (e : CallException) (hall : ∀ i, f i = Except.error e)
    (hr : is_missing_tool_call e = true) :
    ∀ (rem i : Nat), retryLoop f i rem = (Except.error e, i + rem + 1) := by
  intro rem
  induction rem with
  | zero => intro i; unfold retryLoop; rw [hall i]
  | succ rem ih =>
      intro i
      unfold retryLoop
      rw [hall i]
      dsimp only
      rw [if_pos hr, ih (i + 1)]
      rw [show i + 1 + rem + 1 = i + (rem + 1) + 1 from by omega]

/-- Claim C7 (amended): the decorated `call_completion` makes at most five
attempts with the same request; a first-attempt exception that
`is_missing_tool_call` does not recognize is surfaced immediately after a
single attempt, and a persistent recognized `tool_use_failed` error is
retried until the five-attempt budget is exhausted. -/
theorem call_completion_retry_policy (f : Nat → Except CallException Completion) :
    (call_completion_retried f).2 ≤ 5 ∧
    (∀ e, f 0 = Except.error e → is_missing_tool_call e = false →
      call_completion_retried f = (Except.error e, 1)) ∧
    (∀ e, (∀ i, f i = Except.error e) → is_missing_tool_call e = true →
      call_completion_retried f = (Except.error e, 5)) := by
  refine ⟨retryLoop_attempts_le f 4 0, ?_, ?_⟩
  · intro e h0 hnr
    unfold call_completion_retried retryLoop
    rw [h0]
    dsimp only
    rw [if_neg (by simp [hnr])]
  · intro e hall hr
    have := retryLoop_all_fail f e hall hr 4 0
    simpa using this

/-- Witness for `call_completion_retry_policy`: on attempts that always
fail with the recognized error, five attempts are made. -/
theorem call_completion_retry_policy_witness :
    (call_completion_retried c7AllFail).2 ≤ 5 ∧
    call_completion_retried c7AllFail =
      (Except.error (CallException.httpStatusError (some (some "tool_use_failed"))), 5) :=
  ⟨(call_completion_retry_policy c7AllFail).1,
   (call_completion_retry_policy c7AllFail).2.2
     (CallException.httpStatusError (some (some "tool_use_failed")))
     (fun _ => rfl) (by decide)⟩
